import Mathlib

/-!
Shallow embedding of treetop (src/main.c): the tracked-file data model, the
byte-budgeted tail extraction (`read_files`), the menu update pass
(`menu_driver_update`), the watcher loop (`thread_read_files`), the polling
sweep of the fallback backend, config loading (`data_init`) and command-line
argument handling (`main`).  Files on disk are modelled as lists of
characters (the `FILE*` handle is replaced by the file's current content);
pointers into the tail buffer are modelled as natural-number offsets.
-/

namespace Treetop

/-- File state (main.c:87-91). -/
inductive state_e where
  | UNCHANGED
  | UPDATED
  deriving DecidableEq, Repr

open state_e

/-- Per-file information (main.c:103-115).  `content` stands for the bytes
currently in the file behind `fp`; `buff` is the owned tail buffer (`none`
models a NULL pointer) holding the characters written by the read loop;
`buffCap` records the size handed to the most recent malloc/realloc of
`buff`; `line` (a `char*` into `buff` in C) is kept as an offset;
`item_descr` models `item->description.str`, which the update pass points at
`line`. -/
structure data_t where
  full_path : List Char
  base_name : List Char
  content : List Char
  buff : Option (List Char)
  buffCap : Nat
  line : Nat
  state : state_e
  item_descr : Nat
  last_mod : Int
  deriving DecidableEq, Repr

/-- `sizeof(d->buff)` in main.c:186 is the size of a `char*`, which is 8 on
the LP64 platforms this program targets — not the allocated size of the
buffer. -/
def sizeof_charp : Nat := 8

/-- The test guarding the realloc at main.c:186:
`bytes * sizeof(char) != sizeof(d->buff)`.  Since `sizeof(d->buff)` is the
pointer size, the test compares the budget with `sizeof_charp` and is
independent of the buffer's actual allocated capacity (second argument,
unused exactly as in the source). -/
def reallocCondition (bytes _capacity : Nat) : Bool :=
  bytes ≠ sizeof_charp

/-- The seek of main.c:194-195: `fseek(fp, -bytes, SEEK_END)` succeeds only
when the resulting offset `size - bytes` is non-negative; on failure the code
rewinds with `fseek(fp, 0, SEEK_SET)`.  Reading from the resulting position
to end-of-file yields the following tail window. -/
def tailContent (bytes : Nat) (content : List Char) : List Char :=
  if bytes ≤ content.length then content.drop (content.length - bytes)
  else content

/-- The scan inside the read loop of main.c:197-206: at index `j` the byte
just read is stored, and if `j > 0` and the previously stored byte
(`buff[j-1]`, threaded here as `prev`) is a newline, `last` becomes `j`. -/
def scanLoop : List Char → Option Char → Nat → Nat → Nat
  | [], _, _, last => last
  | c :: rest, prev, j, last =>
      scanLoop rest (some c) (j + 1)
        (if 0 < j ∧ prev = some '\n' then j else last)

/-- The value `last - buff` at main.c:208 after the read loop ran over the
whole tail window. -/
def scanLast (tail : List Char) : Nat :=
  scanLoop tail none 0 0

/-- The body of the loop of read_files for one entry (main.c:180-209): an
UPDATED entry gets its buffer (re)allocated according to `reallocCondition`,
the tail window is read into it, and `line` is set to the last-line offset;
any other entry is left alone. -/
def readOne (bytes : Nat) (d : data_t) : data_t :=
  if d.state = UPDATED then
    let tail := tailContent bytes d.content
    { d with
      buff := some tail
      buffCap :=
        match d.buff with
        | none => bytes
        | some _ => if reallocCondition bytes d.buffCap then bytes else d.buffCap
      line := scanLast tail }
  else d

/-- read_files (main.c:171-211): walk the list and process every UPDATED
entry.  The `opened_files` parameter is unused, exactly as in the source. -/
def read_files (bytes : Nat) (_opened_files : Nat) (data : List data_t) :
    List data_t :=
  data.map (readOne bytes)

/-- A sample tracked file used in concrete evaluations. -/
def sample (content : List Char) (st : state_e) : data_t :=
  { full_path := ['f'], base_name := ['f'], content := content, buff := none,
    buffCap := 0, line := 0, state := st, item_descr := 0, last_mod := 0 }

/-- Claim C1: for every tracked file and budget, the extracted tail is the
window computed by the seek-and-read, its length never exceeds the budget,
and a file smaller than the budget is extracted whole. -/
theorem C1_tail_within_budget (bytes : Nat) (d : data_t)
    (h : d.state = UPDATED) :
    (readOne bytes d).buff = some (tailContent bytes d.content) ∧
    (tailContent bytes d.content).length ≤ bytes ∧
    (d.content.length < bytes → tailContent bytes d.content = d.content) := by
  refine ⟨by simp [readOne, h], ?_, ?_⟩
  · unfold tailContent
    split
    · simp only [List.length_drop]
      omega
    · omega
  · intro hlt
    unfold tailContent
    rw [if_neg (by omega)]

/-- Concrete run of C1: a two-byte file against a budget of five bytes. -/
theorem C1_witness :
    (sample ['a', 'b'] UPDATED).state = UPDATED ∧
    ((readOne 5 (sample ['a', 'b'] UPDATED)).buff =
        some (tailContent 5 (sample ['a', 'b'] UPDATED).content) ∧
      (tailContent 5 (sample ['a', 'b'] UPDATED).content).length ≤ 5 ∧
      ((sample ['a', 'b'] UPDATED).content.length < 5 →
        tailContent 5 (sample ['a', 'b'] UPDATED).content =
          (sample ['a', 'b'] UPDATED).content)) :=
  ⟨rfl, C1_tail_within_budget 5 (sample ['a', 'b'] UPDATED) rfl⟩

/-- Claim C6: a byte budget of 0 extracts an empty tail (and the last-line
marker is the buffer start); no error path is taken. -/
theorem C6_zero_budget (d : data_t) (h : d.state = UPDATED) :
    (readOne 0 d).buff = some [] ∧ (readOne 0 d).line = 0 := by
  have ht : tailContent 0 d.content = [] := by
    unfold tailContent
    rw [if_pos (Nat.zero_le _)]
    simp
  constructor
  · simp [readOne, h, ht]
  · simp [readOne, h, ht]
    rfl

/-- Concrete run of C6 on a three-byte file. -/
theorem C6_witness :
    (sample ['x', 'y', 'z'] UPDATED).state = UPDATED ∧
    ((readOne 0 (sample ['x', 'y', 'z'] UPDATED)).buff = some [] ∧
      (readOne 0 (sample ['x', 'y', 'z'] UPDATED)).line = 0) :=
  ⟨rfl, C6_zero_budget (sample ['x', 'y', 'z'] UPDATED) rfl⟩

/-- Claim C10: read_files leaves every UNCHANGED entry — buffer, last-line
marker, state and all — exactly as it was, for every budget. -/
theorem C10_unchanged_frame (bytes opened : Nat) (datas : List data_t)
    (i : Nat) (d : data_t) (h1 : datas[i]? = some d)
    (h2 : d.state = UNCHANGED) :
    (read_files bytes opened datas)[i]? = some d := by
  have hd : readOne bytes d = d := by
    unfold readOne
    rw [if_neg (by rw [h2]; exact fun hc => state_e.noConfusion hc)]
  simp [read_files, List.getElem?_map, h1, hd]

/-- Concrete run of C10: an UNCHANGED entry survives read_files untouched. -/
theorem C10_witness :
    [sample ['a'] UNCHANGED][0]? = some (sample ['a'] UNCHANGED) ∧
    (sample ['a'] UNCHANGED).state = UNCHANGED ∧
    (read_files 7 1 [sample ['a'] UNCHANGED])[0]? =
      some (sample ['a'] UNCHANGED) :=
  ⟨rfl, rfl, C10_unchanged_frame 7 1 [sample ['a'] UNCHANGED] 0
    (sample ['a'] UNCHANGED) rfl rfl⟩

/-- Invariant of the last-line scan: running over `rest = full.drop j` with
`prev` the character stored at `j - 1`, the result either points right after
a newline of `full`, or is 0 and no newline occurs at positions `0..j-2` —
at exit, at positions strictly before the final one. -/
theorem scanLoop_spec (rest : List Char) :
    ∀ (full : List Char) (prev : Option Char) (j last : Nat),
      rest = full.drop j →
      (0 < j → prev = full[j - 1]?) →
      (0 < last → full[last - 1]? = some '\n') →
      (last = 0 → ∀ i, i + 1 < j → full[i]? ≠ some '\n') →
      (0 < scanLoop rest prev j last →
          full[scanLoop rest prev j last - 1]? = some '\n') ∧
      (scanLoop rest prev j last = 0 →
          ∀ i, i + 1 < full.length → full[i]? ≠ some '\n') := by
  induction rest with
  | nil =>
    intro full prev j last h1 _h2 h3 h4
    refine ⟨h3, fun h0 i hi => ?_⟩
    have hlen : full.length ≤ j := by
      have hl := congrArg List.length h1
      simp only [List.length_nil, List.length_drop] at hl
      omega
    exact h4 h0 i (by omega)
  | cons c rest ih =>
    intro full prev j last h1 h2 h3 h4
    have hj : j < full.length := by
      by_contra hge
      rw [List.drop_eq_nil_of_le (by omega)] at h1
      exact List.cons_ne_nil c rest h1
    have hc : full[j]? = some c := by
      have h0 := congrArg (fun l : List Char => l[0]?) h1
      simpa [List.getElem?_drop] using h0.symm
    have h1' : rest = full.drop (j + 1) := by
      have ht := congrArg List.tail h1
      simpa [List.tail_drop] using ht
    simp only [scanLoop]
    by_cases hcond : 0 < j ∧ prev = some '\n'
    · rw [if_pos hcond]
      refine ih full (some c) (j + 1) j h1' (fun _ => hc.symm) ?_ ?_
      · intro _
        rw [← h2 hcond.1, hcond.2]
      · intro h0
        omega
    · rw [if_neg hcond]
      refine ih full (some c) (j + 1) last h1' (fun _ => hc.symm) h3 ?_
      intro h0 i hi
      rcases Nat.lt_or_ge (i + 1) j with hlt | hge
      · exact h4 h0 i hlt
      · have hij : i + 1 = j := by omega
        have hjpos : 0 < j := by omega
        have hpre : prev ≠ some '\n' := fun hp => hcond ⟨hjpos, hp⟩
        rw [show i = j - 1 by omega, ← h2 hjpos]
        exact hpre

/-- The last-line property exactly as claim C2 states it: the marker
immediately follows a newline of the extracted window, or it is the buffer
start and no newline occurs anywhere in the window. -/
def lastLineClaim (tail : List Char) (ln : Nat) : Prop :=
  (0 < ln ∧ tail[ln - 1]? = some '\n') ∨ (ln = 0 ∧ '\n' ∉ tail)

/-- Counterexample to claim C2 as stated: a window consisting of the single
character newline.  The window contains a newline, yet the marker produced
by the read loop is the buffer start, which does not follow a newline: the
scan checks `buff[j-1]` only while a byte `j` is being stored, so a newline
in the final position is never reflected. -/
theorem C2_counterexample :
    (readOne 1 (sample ['\n'] UPDATED)).buff = some ['\n'] ∧
    (readOne 1 (sample ['\n'] UPDATED)).line = 0 ∧
    ¬ lastLineClaim ['\n'] 0 := by
  refine ⟨rfl, rfl, ?_⟩
  unfold lastLineClaim
  decide

/-- Claim C2 (amended): after a tail extraction the marker lies within the
extracted window and immediately follows a newline, or it is the buffer
start and no newline occurs strictly before the final byte of the window (a
newline in the very last position is not reflected by the marker). -/
theorem C2_last_line_amended (bytes : Nat) (d : data_t)
    (h : d.state = UPDATED) :
    (readOne bytes d).buff = some (tailContent bytes d.content) ∧
    (readOne bytes d).line ≤ (tailContent bytes d.content).length ∧
    ((0 < (readOne bytes d).line ∧
        (tailContent bytes d.content)[(readOne bytes d).line - 1]? =
          some '\n') ∨
      ((readOne bytes d).line = 0 ∧
        ∀ i, i + 1 < (tailContent bytes d.content).length →
          (tailContent bytes d.content)[i]? ≠ some '\n')) := by
  have hline : (readOne bytes d).line = scanLast (tailContent bytes d.content) := by
    simp [readOne, h]
  have hbuff : (readOne bytes d).buff = some (tailContent bytes d.content) := by
    simp [readOne, h]
  set tail := tailContent bytes d.content with htail
  have hspec := scanLoop_spec tail tail none 0 0 (List.drop_zero tail).symm
    (fun hz => absurd hz (by omega)) (fun hz => absurd hz (by omega))
    (fun _ i hi => absurd hi (by omega))
  rw [hline]
  have hr := hspec
  rcases Nat.eq_zero_or_pos (scanLast tail) with hz | hpos
  · refine ⟨hbuff, by rw [scanLast] at hz ⊢; omega, Or.inr ⟨hz, ?_⟩⟩
    rw [scanLast] at hz
    exact hr.2 hz
  · have hb : tail[scanLast tail - 1]? = some '\n' := by
      rw [scanLast]
      exact hr.1 (by rw [scanLast] at hpos; exact hpos)
    have hlt : scanLast tail - 1 < tail.length := by
      by_contra hge
      rw [List.getElem?_eq_none (by omega)] at hb
      exact Option.noConfusion hb
    exact ⟨hbuff, by omega, Or.inl ⟨hpos, hb⟩⟩

/-- Concrete run of the amended C2 on the window made of characters a,
newline, b: the marker is offset 2, right after the newline. -/
theorem C2_witness :
    (sample ['a', '\n', 'b'] UPDATED).state = UPDATED ∧
    ((readOne 3 (sample ['a', '\n', 'b'] UPDATED)).buff =
        some (tailContent 3 (sample ['a', '\n', 'b'] UPDATED).content) ∧
      (readOne 3 (sample ['a', '\n', 'b'] UPDATED)).line ≤
        (tailContent 3 (sample ['a', '\n', 'b'] UPDATED).content).length ∧
      ((0 < (readOne 3 (sample ['a', '\n', 'b'] UPDATED)).line ∧
          (tailContent 3 (sample ['a', '\n', 'b'] UPDATED).content)[
            (readOne 3 (sample ['a', '\n', 'b'] UPDATED)).line - 1]? =
            some '\n') ∨
        ((readOne 3 (sample ['a', '\n', 'b'] UPDATED)).line = 0 ∧
          ∀ i,
            i + 1 <
              (tailContent 3 (sample ['a', '\n', 'b'] UPDATED).content).length →
            (tailContent 3 (sample ['a', '\n', 'b'] UPDATED).content)[i]? ≠
              some '\n'))) :=
  ⟨rfl, C2_last_line_amended 3 (sample ['a', '\n', 'b'] UPDATED) rfl⟩

/-- First pass of menu_driver_update (main.c:247-253): every UPDATED entry
gets its menu-row description pointed at its last line. -/
def mduDescr : List data_t → List data_t
  | [] => []
  | d :: rest =>
      (if d.state = UPDATED then { d with item_descr := d.line } else d) ::
        mduDescr rest

/-- Second pass of menu_driver_update (main.c:255-267), state part: an
UPDATED entry that is the current item has its flag cleared; rows are
numbered from `i`. -/
def mduFlags (selected : Nat) : Nat → List data_t → List data_t
  | _, [] => []
  | i, d :: rest =>
      (if d.state = UPDATED ∧ i = selected then { d with state := UNCHANGED }
       else d) ::
        mduFlags selected (i + 1) rest

/-- Second pass of menu_driver_update (main.c:255-267), drawing part: the
rows at which the change indicator is printed — UPDATED entries other than
the current item. -/
def mduDrawn (selected : Nat) : Nat → List data_t → List Nat
  | _, [] => []
  | i, d :: rest =>
      (if d.state = UPDATED ∧ i ≠ selected then [i] else []) ++
        mduDrawn selected (i + 1) rest

/-- menu_driver_update (main.c:239-273) restricted to its observable effect
on the data list: the description pass followed by the indicator/flag pass.
`selected` is the index of `current_item`; the result pairs the new data
list with the rows where an indicator was drawn. -/
def menu_driver_update (datas : List data_t) (selected : Nat) :
    List data_t × List Nat :=
  let ds := mduDescr datas
  (mduFlags selected 0 ds, mduDrawn selected 0 ds)

theorem mduDescr_getElem? (l : List data_t) (k : Nat) :
    (mduDescr l)[k]? =
      l[k]?.map fun d =>
        if d.state = UPDATED then { d with item_descr := d.line } else d := by
  induction l generalizing k with
  | nil => simp [mduDescr]
  | cons d rest ih =>
    cases k with
    | zero => simp [mduDescr]
    | succ k => simp [mduDescr, ih]

theorem mduFlags_getElem? (sel : Nat) (l : List data_t) (i k : Nat) :
    (mduFlags sel i l)[k]? =
      l[k]?.map fun d =>
        if d.state = UPDATED ∧ i + k = sel then { d with state := UNCHANGED }
        else d := by
  induction l generalizing i k with
  | nil => simp [mduFlags]
  | cons d rest ih =>
    cases k with
    | zero => simp [mduFlags]
    | succ k =>
      simp only [mduFlags, List.getElem?_cons_succ, ih, Nat.succ_add,
        Nat.add_succ]

theorem mduDrawn_ne (sel : Nat) (l : List data_t) :
    ∀ (i k : Nat), k ∈ mduDrawn sel i l → k ≠ sel := by
  induction l with
  | nil =>
    intro i k h
    simp [mduDrawn] at h
  | cons d rest ih =>
    intro i k h
    simp only [mduDrawn, List.mem_append] at h
    rcases h with h | h
    · by_cases hcond : d.state = UPDATED ∧ i ≠ sel
      · rw [if_pos hcond] at h
        simp only [List.mem_singleton] at h
        subst h
        exact hcond.2
      · rw [if_neg hcond] at h
        simp at h
    · exact ih (i + 1) k h

theorem mem_mduDrawn (sel : Nat) (l : List data_t) :
    ∀ (i k : Nat) (d : data_t), l[k]? = some d → d.state = UPDATED →
      i + k ≠ sel → i + k ∈ mduDrawn sel i l := by
  induction l with
  | nil =>
    intro i k d h
    simp at h
  | cons e rest ih =>
    intro i k d h hst hne
    cases k with
    | zero =>
      simp only [List.getElem?_cons_zero, Option.some.injEq] at h
      subst h
      simp only [mduDrawn, List.mem_append]
      left
      rw [if_pos ⟨hst, by simpa using hne⟩]
      simp
    | succ k =>
      simp only [List.getElem?_cons_succ] at h
      have hmem := ih (i + 1) k d h hst (by omega)
      simp only [mduDrawn, List.mem_append]
      right
      rw [show i + (k + 1) = (i + 1) + k by omega]
      exact hmem

/-- Claim C3: on a render/update pass, an UPDATED entry that is the selected
item is reset to UNCHANGED (keeping its freshly set description) and no
indicator is drawn at its row; an UPDATED entry that is not selected keeps
its flag and gets an indicator at its row. -/
theorem C3_updated_indicator (datas : List data_t) (selected i : Nat)
    (d : data_t) (h1 : datas[i]? = some d) (h2 : d.state = UPDATED) :
    (i = selected →
      (menu_driver_update datas selected).1[i]? =
        some { d with item_descr := d.line, state := UNCHANGED } ∧
      i ∉ (menu_driver_update datas selected).2) ∧
    (i ≠ selected →
      (menu_driver_update datas selected).1[i]? =
        some { d with item_descr := d.line } ∧
      i ∈ (menu_driver_update datas selected).2) := by
  have hds : (mduDescr datas)[i]? = some { d with item_descr := d.line } := by
    rw [mduDescr_getElem?, h1]
    simp [h2]
  constructor
  · intro hsel
    constructor
    · show (mduFlags selected 0 (mduDescr datas))[i]? = _
      rw [mduFlags_getElem?, hds]
      simp [h2, hsel]
    · intro hmem
      exact mduDrawn_ne selected (mduDescr datas) 0 i hmem hsel
  · intro hsel
    constructor
    · show (mduFlags selected 0 (mduDescr datas))[i]? = _
      rw [mduFlags_getElem?, hds]
      simp [hsel]
    · show i ∈ mduDrawn selected 0 (mduDescr datas)
      have := mem_mduDrawn selected (mduDescr datas) 0 i
        { d with item_descr := d.line } hds h2 (by simpa using hsel)
      simpa using this

/-- Concrete run of C3: two entries, entry 1 is UPDATED and entry 0 is
selected, so entry 1 keeps its flag and gets an indicator while the selected
branch is vacuous. -/
theorem C3_witness :
    [sample ['a'] UNCHANGED, sample ['b', '\n'] UPDATED][1]? =
      some (sample ['b', '\n'] UPDATED) ∧
    (sample ['b', '\n'] UPDATED).state = UPDATED ∧
    ((1 = 0 →
      (menu_driver_update
          [sample ['a'] UNCHANGED, sample ['b', '\n'] UPDATED] 0).1[1]? =
        some { sample ['b', '\n'] UPDATED with
                item_descr := (sample ['b', '\n'] UPDATED).line,
                state := UNCHANGED } ∧
      1 ∉ (menu_driver_update
          [sample ['a'] UNCHANGED, sample ['b', '\n'] UPDATED] 0).2) ∧
    (1 ≠ 0 →
      (menu_driver_update
          [sample ['a'] UNCHANGED, sample ['b', '\n'] UPDATED] 0).1[1]? =
        some { sample ['b', '\n'] UPDATED with
                item_descr := (sample ['b', '\n'] UPDATED).line } ∧
      1 ∈ (menu_driver_update
          [sample ['a'] UNCHANGED, sample ['b', '\n'] UPDATED] 0).2)) :=
  ⟨rfl, rfl,
    C3_updated_indicator [sample ['a'] UNCHANGED, sample ['b', '\n'] UPDATED]
      0 1 (sample ['b', '\n'] UPDATED) rfl rfl⟩

/-- Observable actions of the watcher thread, in program order: a tail
write for one entry by the read pass, a render pass, the setting of one
entry's Updated flag by event handling. -/
inductive WatchAction where
  | writeTail (idx : Nat)
  | render
  | setUpdated (idx : Nat)
  deriving DecidableEq, Repr

/-- Indices of the entries the read pass writes: exactly the UPDATED
ones. -/
def flaggedIdx (l : List data_t) : List Nat :=
  (List.range l.length).filter
    fun i => decide (l[i]?.map data_t.state = some UPDATED)

/-- Event handling of thread_read_files (main.c:404-411, and the mtime
check of main.c:417-429): the entry named by the event has its state set to
UPDATED; nothing is read or written there. -/
def setUpdatedAt : List data_t → Nat → List data_t
  | [], _ => []
  | d :: rest, 0 => { d with state := UPDATED } :: rest
  | d :: rest, n + 1 => d :: setUpdatedAt rest n

/-- Action trace of one iteration of the watcher loop (main.c:338-432): the
read pass writes the tail buffers of the currently flagged entries, the
render pass runs, and then at most one change event (`ev`, the index of the
file it names) sets a flag. -/
def watcherTrace (datas : List data_t) (ev : Option Nat) : List WatchAction :=
  (flaggedIdx datas).map WatchAction.writeTail ++ [WatchAction.render] ++
    (match ev with
      | some idx => [WatchAction.setUpdated idx]
      | none => [])

/-- State transformation of one iteration of the watcher loop: read_files
over the flagged entries, then the event's flag set. -/
def watcherStep (bytes : Nat) (datas : List data_t) (ev : Option Nat) :
    List data_t :=
  match ev with
  | some idx => setUpdatedAt (read_files bytes datas.length datas) idx
  | none => read_files bytes datas.length datas

/-- Action trace of two consecutive watcher iterations, the first receiving
a change event for file `idx`, the second receiving none. -/
def watcherTwoIterTrace (bytes : Nat) (datas : List data_t) (idx : Nat) :
    List WatchAction :=
  watcherTrace datas (some idx) ++
    watcherTrace (watcherStep bytes datas (some idx)) none

/-- Claim C4 as stated: whenever the watcher sets a file's Updated flag, the
tail-buffer write for that triggering change has already completed earlier
in the trace. -/
def writeBeforeFlagClaim (tr : List WatchAction) : Prop :=
  ∀ (p idx : Nat), tr[p]? = some (WatchAction.setUpdated idx) →
    ∃ q : Nat, q < p ∧ tr[q]? = some (WatchAction.writeTail idx)

theorem flaggedIdx_mem (l : List data_t) (i : Nat) :
    i ∈ flaggedIdx l ↔ l[i]?.map data_t.state = some UPDATED := by
  unfold flaggedIdx
  constructor
  · intro h
    have := (List.mem_filter.mp h).2
    simpa using this
  · intro h
    refine List.mem_filter.mpr ⟨List.mem_range.mpr ?_, by simpa using h⟩
    by_contra hge
    rw [List.getElem?_eq_none (by omega)] at h
    simp at h

theorem setUpdatedAt_getElem?_self (l : List data_t) (idx : Nat) (d : data_t)
    (h : l[idx]? = some d) :
    (setUpdatedAt l idx)[idx]? = some { d with state := UPDATED } := by
  induction l generalizing idx with
  | nil => simp at h
  | cons e rest ih =>
    cases idx with
    | zero =>
      simp only [List.getElem?_cons_zero, Option.some.injEq] at h
      subst h
      simp [setUpdatedAt]
    | succ n =>
      simp only [List.getElem?_cons_succ] at h
      simpa [setUpdatedAt] using ih n h

/-- Counterexample to claim C4 as stated: one quiescent tracked file and a
single change event.  The trace is render, flag set, tail write, render —
the Updated flag is set one full iteration before the tail buffer for the
triggering change is written. -/
theorem C4_counterexample :
    watcherTwoIterTrace 4 [sample ['a', '\n'] UNCHANGED] 0 =
      [WatchAction.render, WatchAction.setUpdated 0,
        WatchAction.writeTail 0, WatchAction.render] ∧
    ¬ writeBeforeFlagClaim
        (watcherTwoIterTrace 4 [sample ['a', '\n'] UNCHANGED] 0) := by
  refine ⟨by decide, ?_⟩
  intro h
  obtain ⟨q, hq, hq2⟩ := h 1 0 (by decide)
  have hq0 : q = 0 := by omega
  subst hq0
  exact absurd hq2 (by decide)

/-- Claim C4 (amended): the order is the reverse of the claimed one — the
watcher sets the Updated flag when the event arrives and performs the tail
write only at the head of the next iteration, before that iteration's own
render pass.  In a two-iteration run triggered by an event for a previously
quiescent file, the flag-set action strictly precedes the first tail write
for that file, and a render of the watcher follows the write. -/
theorem C4_flag_before_write (bytes : Nat) (datas : List data_t) (idx : Nat)
    (d : data_t) (h1 : datas[idx]? = some d) (h2 : d.state = UNCHANGED) :
    ∃ pre mid post,
      watcherTwoIterTrace bytes datas idx =
        pre ++ WatchAction.setUpdated idx ::
          (mid ++ WatchAction.writeTail idx :: post) ∧
      WatchAction.writeTail idx ∉ pre ∧
      WatchAction.render ∈ post := by
  have hflag : idx ∈ flaggedIdx (watcherStep bytes datas (some idx)) := by
    rw [flaggedIdx_mem]
    have hd1 : (read_files bytes datas.length datas)[idx]? =
        some (readOne bytes d) := by
      simp [read_files, List.getElem?_map, h1]
    have := setUpdatedAt_getElem?_self _ idx (readOne bytes d) hd1
    simp [watcherStep, this]
  obtain ⟨s, t, hst⟩ := List.append_of_mem hflag
  refine ⟨(flaggedIdx datas).map WatchAction.writeTail ++ [WatchAction.render],
    s.map WatchAction.writeTail,
    t.map WatchAction.writeTail ++ [WatchAction.render], ?_, ?_, ?_⟩
  · rw [watcherTwoIterTrace, watcherTrace, watcherTrace, hst]
    simp [List.map_append, List.append_assoc]
  · intro hmem
    rcases List.mem_append.mp hmem with hmem | hmem
    · obtain ⟨a, ha, heq⟩ := List.mem_map.mp hmem
      have ha' : a = idx := by
        cases heq
        rfl
      subst ha'
      rw [flaggedIdx_mem, h1] at ha
      simp [h2] at ha
    · simp at hmem
  · simp

/-- Concrete run of the amended C4 at the counterexample input. -/
theorem C4_witness :
    [sample ['a', '\n'] UNCHANGED][0]? = some (sample ['a', '\n'] UNCHANGED) ∧
    (sample ['a', '\n'] UNCHANGED).state = UNCHANGED ∧
    ∃ pre mid post,
      watcherTwoIterTrace 4 [sample ['a', '\n'] UNCHANGED] 0 =
        pre ++ WatchAction.setUpdated 0 ::
          (mid ++ WatchAction.writeTail 0 :: post) ∧
      WatchAction.writeTail 0 ∉ pre ∧
      WatchAction.render ∈ post :=
  ⟨rfl, rfl,
    C4_flag_before_write 4 [sample ['a', '\n'] UNCHANGED] 0
      (sample ['a', '\n'] UNCHANGED) rfl rfl⟩

/-- Claim C5 is violated by the code: the realloc guard at main.c:186
compares the byte budget with `sizeof(d->buff)` — the size of a `char*` —
instead of the buffer's allocated capacity.  With an allocated capacity of
100 and an unchanged budget of 100 the code reallocates anyway, and with a
capacity of 100 and a budget of 8 it fails to reallocate. -/
theorem C5_realloc_guard :
    reallocCondition 100 100 = true ∧ reallocCondition 8 100 = false := by
  decide

/-- Diagnostic printed by the ER macro call at main.c:420-421. -/
def statErrMsg (d : data_t) : List Char :=
  ("Could not obtain file stats for: ").toList ++ d.base_name

/-- The polling sweep of the fallback watcher (main.c:417-429): stat every
entry in order; a failed stat (`statRes` returning none) runs ER, which
terminates the process — modelled as an error result that abandons the rest
of the list; a changed modification time flags the entry. -/
def pollSweep (statRes : List Char → Option Int) :
    List data_t → Except (List Char) (List data_t)
  | [] => .ok []
  | d :: rest =>
    match statRes d.full_path with
    | none => .error (statErrMsg d)
    | some t =>
      (pollSweep statRes rest).map
        (fun r =>
          (if t ≠ d.last_mod then { d with last_mod := t, state := UPDATED }
           else d) :: r)

/-- Claim C7: if the stat of any tracked file fails during a polling sweep,
the sweep ends in the fatal ER diagnostic; monitoring of the remaining
files does not continue. -/
theorem C7_stat_failure_fatal (statRes : List Char → Option Int)
    (datas : List data_t) (d : data_t) (h1 : d ∈ datas)
    (h2 : statRes d.full_path = none) :
    ∃ msg, pollSweep statRes datas = .error msg := by
  induction datas with
  | nil => simp at h1
  | cons e rest ih =>
    rcases List.mem_cons.mp h1 with he | he
    · subst he
      exact ⟨statErrMsg d, by simp [pollSweep, h2]⟩
    · cases hs : statRes e.full_path with
      | none => exact ⟨statErrMsg e, by simp [pollSweep, hs]⟩
      | some t =>
        obtain ⟨msg, hmsg⟩ := ih he
        exact ⟨msg, by simp [pollSweep, hs, hmsg, Except.map]⟩

/-- Concrete run of C7: a single entry whose stat fails. -/
theorem C7_witness :
    sample ['a'] UNCHANGED ∈ [sample ['a'] UNCHANGED] ∧
    (fun _ : List Char => (none : Option Int))
        (sample ['a'] UNCHANGED).full_path = none ∧
    ∃ msg,
      pollSweep (fun _ => none) [sample ['a'] UNCHANGED] = .error msg :=
  ⟨List.mem_singleton.mpr rfl, rfl,
    C7_stat_failure_fatal (fun _ => none) [sample ['a'] UNCHANGED]
      (sample ['a'] UNCHANGED) (List.mem_singleton.mpr rfl) rfl⟩

/-- isspace(3) in the default locale: space and the five control
whitespace characters. -/
def isSpaceC (c : Char) : Bool :=
  c = ' ' || c = '\t' || c = '\n' || c = '\x0b' || c = '\x0c' || c = '\r'

/-- One config line as processed by data_init (main.c:563-588): skip leading
whitespace; a line whose first remaining character is the comment marker is
dropped; otherwise the line is truncated at the first comment marker, the
first newline and the first blank, and an empty remainder is dropped.
Returns the path the line contributes, if any. -/
def parseLine (l : List Char) : Option (List Char) :=
  let c := l.dropWhile isSpaceC
  if c.head? = some '#' then none
  else
    let c3 :=
      ((c.takeWhile (· != '#')).takeWhile (· != '\n')).takeWhile (· != ' ')
    if c3 = [] then none else some c3

/-- basename(3) as called at main.c:597, for ordinary paths without a
trailing slash: the component after the last slash. -/
def basenameC (p : List Char) : List Char :=
  (p.reverse.takeWhile (· != '/')).reverse

/-- A fresh Registry entry (main.c:592-607): calloc zeroes every field,
then the handle, the paths and the forced UPDATED state are filled in.
`contents` maps a path to the bytes of the file behind the opened
handle. -/
def mkEntry (contents : List Char → List Char) (path : List Char) : data_t :=
  { full_path := path, base_name := basenameC path, content := contents path,
    buff := none, buffCap := 0, line := 0, state := UPDATED, item_descr := 0,
    last_mod := 0 }

/-- The config loop of data_init (main.c:560-610) with its prepending of
each accepted entry to `head`; `openable` tells which paths fopen accepts —
a rejected path is skipped with a warning. -/
def data_initGo (openable : List Char → Bool)
    (contents : List Char → List Char) :
    List (List Char) → List data_t → List data_t
  | [], head => head
  | l :: rest, head =>
    match parseLine l with
    | none => data_initGo openable contents rest head
    | some p =>
      if openable p then
        data_initGo openable contents rest (mkEntry contents p :: head)
      else data_initGo openable contents rest head

/-- data_init (main.c:548-611): build the Registry from the config lines,
starting from the empty list. -/
def data_init (openable : List Char → Bool)
    (contents : List Char → List Char) (lines : List (List Char)) :
    List data_t :=
  data_initGo openable contents lines []

theorem data_initGo_map_full_path (openable : List Char → Bool)
    (contents : List Char → List Char) (lines : List (List Char))
    (head : List data_t) :
    (data_initGo openable contents lines head).map data_t.full_path =
      ((lines.filterMap parseLine).filter openable).reverse ++
        head.map data_t.full_path := by
  induction lines generalizing head with
  | nil => simp [data_initGo]
  | cons l rest ih =>
    cases hp : parseLine l with
    | none => simp [data_initGo, hp, ih]
    | some p =>
      by_cases ho : openable p
      · simp [data_initGo, hp, ho, ih, mkEntry]
      · simp [data_initGo, hp, ho, ih]

/-- Claim C8: the Registry built by data_init lists the successfully opened
entries in exactly the reverse of the order in which their paths appear in
the config file. -/
theorem C8_registry_reversed (openable : List Char → Bool)
    (contents : List Char → List Char) (lines : List (List Char)) :
    (data_init openable contents lines).map data_t.full_path =
      ((lines.filterMap parseLine).filter openable).reverse := by
  simpa using data_initGo_map_full_path openable contents lines []

/-- Numeric value of a digit string, as accumulated by atoi. -/
def digitsVal (ds : List Char) : Nat :=
  ds.foldl (fun acc c => acc * 10 + (c.toNat - Char.toNat '0')) 0

/-- atoi(3): leading whitespace, an optional sign, then the longest digit
prefix; 0 when there are no digits.  Overflow is not modelled. -/
def atoiM (s : List Char) : Int :=
  match s.dropWhile isSpaceC with
  | '-' :: r => -(Int.ofNat (digitsVal (r.takeWhile Char.isDigit)))
  | '+' :: r => Int.ofNat (digitsVal (r.takeWhile Char.isDigit))
  | r => Int.ofNat (digitsVal (r.takeWhile Char.isDigit))

/-- DEFAULT_TIMEOUT_SECS (main.c:72). -/
def DEFAULT_TIMEOUT_SECS : Int := 10

/-- Outcome of argument handling in main: either a config name with the
timeout in seconds, or an exit through usage(). -/
inductive ArgsOutcome where
  | ok (fname : List Char) (timeout_secs : Int)
  | usageExit
  deriving DecidableEq, Repr

/-- The argument loop of main (main.c:827-842): `strncmp(argv[i], "-d", 2)`
matches a first flag whose first two characters are -d and consumes the
next argument through atoi; -h and any other dash argument exit through
usage(); anything else becomes the config name. -/
def parseArgsGo :
    List (List Char) → Option (List Char) → Int →
      Option (Option (List Char) × Int)
  | [], f, t => some (f, t)
  | a :: rest, f, t =>
    if a.take 2 = ['-', 'd'] then
      match rest with
      | v :: rest2 => parseArgsGo rest2 f (atoiM v)
      | [] => none
    else if a.take 2 = ['-', 'h'] then none
    else if a.head? ≠ some '-' then parseArgsGo rest (some a) t
    else none

/-- Argument handling of main including the sanity checks at
main.c:845-848: a missing config name or a negative timeout also exits
through usage(). -/
def mainArgs (args : List (List Char)) : ArgsOutcome :=
  match parseArgsGo args none DEFAULT_TIMEOUT_SECS with
  | none => .usageExit
  | some (none, _) => .usageExit
  | some (some f, t) => if t < 0 then .usageExit else .ok f t

/-- The getch timeout installed by screen_create (main.c:481):
`timeout(-1)` — the `timeout_ms` parameter computed from the -d flag at
main.c:862 is never used. -/
def screen_create_getch_timeout (_timeout_ms : Int) : Int := -1

/-- The pause between two polling sweeps of the fallback watcher
(main.c:430): `usleep(25000)` — a constant 25000 microseconds, independent
of the -d value. -/
def pollIntervalUsec (_timeout_secs : Int) : Int := 25000

/-- Claim C9 is violated by the code: with arguments cfg -d 5 the flag is
parsed and validated (timeout_secs becomes 5), but screen_create installs a
getch timeout of -1 and the polling sweep sleeps a constant 25000
microseconds, so the interval between stat sweeps never equals the -d
value. -/
theorem C9_poll_interval_ignores_flag :
    mainArgs [['c', 'f', 'g'], ['-', 'd'], ['5']] = .ok ['c', 'f', 'g'] 5 ∧
    pollIntervalUsec 5 = 25000 ∧
    screen_create_getch_timeout (5 * 1000) = -1 ∧
    pollIntervalUsec 5 ≠ 5 * 1000000 := by
  refine ⟨by decide, rfl, rfl, by decide⟩

end Treetop
